import Mathlib

/-!
Verification of the favourites / listening-progress / player core of
"The Healing Mic" podcast client (`src/vanilla/app.js`).

The JavaScript is shallowly embedded:

* JS numbers are modelled by `JSNum`: either `NaN` or a finite rational.
  Stored progress values always come from a `JSON.stringify`/`JSON.parse`
  round trip, which maps non-finite numbers to `null`, so finite rationals
  plus `NaN` (for in-memory values) cover every value the modelled code
  can meet.  `undefined` fields are modelled with `Option` (`none`), and
  where `undefined` flows into a numeric comparison it behaves exactly
  like `NaN` (falsy, all comparisons false), which the model exploits via
  `Option.getD JSNum.nan`.
* Parsed JSON documents are `JValue`; the raw content of one
  `localStorage` cell is `RawVal` (absent, unparsable, or parsing to a
  `JValue`).  The empty string — falsy in JS and also unparsable — is
  modelled by `RawVal.corrupt`; both it and `absent` produce the same
  defaults in every read path below.
* Functions that the source wraps in `try { ... } catch { default }` are
  given twice: a body in `Except Unit` (where `JSON.parse` can fail) and
  the caught total version the callers see.
* The favourites list and the progress map are modelled at the level of
  well-formed stored values (`FavItem`, `ProgEntry`), matching the shapes
  the source itself writes.
-/

/-- A JavaScript number: `NaN` or a finite rational. -/
inductive JSNum where
  | nan
  | fin (q : ℚ)
deriving DecidableEq, Repr

/-- JS truthiness of a number: `NaN` and `0` are falsy. -/
def jtruthy : JSNum → Bool
  | .nan => false
  | .fin q => q != 0

/-- JS `>=` on numbers: any comparison with `NaN` is false. -/
def jge : JSNum → JSNum → Bool
  | .fin a, .fin b => a ≥ b
  | _, _ => false

/-- JS `>` on numbers: any comparison with `NaN` is false. -/
def jgt : JSNum → JSNum → Bool
  | .fin a, .fin b => a > b
  | _, _ => false

/-- JS addition; `NaN` is absorbing. -/
def jadd : JSNum → JSNum → JSNum
  | .fin a, .fin b => .fin (a + b)
  | _, _ => .nan

/-- JS subtraction; `NaN` is absorbing. -/
def jsub : JSNum → JSNum → JSNum
  | .fin a, .fin b => .fin (a - b)
  | _, _ => .nan

/-- JS multiplication; `NaN` is absorbing.  (Products with infinities do
not arise: the model carries no infinite values.) -/
def jmul : JSNum → JSNum → JSNum
  | .fin a, .fin b => .fin (a * b)
  | _, _ => .nan

/-- JS division.  Division by zero is mapped to `NaN`; every division the
embedded code performs is guarded by a strict-positivity test on the
divisor, so this case is unreachable in the verified paths. -/
def jdiv : JSNum → JSNum → JSNum
  | .fin a, .fin b => if b = 0 then .nan else .fin (a / b)
  | _, _ => .nan

/-- `Math.max`; returns `NaN` if an argument is `NaN`. -/
def jmax : JSNum → JSNum → JSNum
  | .fin a, .fin b => .fin (max a b)
  | _, _ => .nan

/-- `Math.min`; returns `NaN` if an argument is `NaN`. -/
def jmin : JSNum → JSNum → JSNum
  | .fin a, .fin b => .fin (min a b)
  | _, _ => .nan

/-- `Math.round`: round half toward positive infinity. -/
def jround : JSNum → JSNum
  | .nan => .nan
  | .fin q => .fin (⌊q + 1/2⌋ : ℤ)

/-- `isFinite`: in this model every non-`NaN` number is finite. -/
def jsIsFinite : JSNum → Bool
  | .nan => false
  | .fin _ => true

/-- JS `||` on numbers: the left operand unless it is falsy. -/
def jorNum (a b : JSNum) : JSNum := if jtruthy a then a else b

/-- An arbitrary JS value in argument position, as far as
`typeof x === "number"` can distinguish it: a number (possibly `NaN`),
`undefined`, or any other non-number value. -/
inductive JSArg where
  | num (n : JSNum)
  | undef
  | nonNum
deriving DecidableEq, Repr

/-- `typeof x === "number"`.  Note `typeof NaN === "number"` holds. -/
def isNumberType : JSArg → Bool
  | .num _ => true
  | _ => false

/-- A parsed JSON document (the result of a successful `JSON.parse`). -/
inductive JValue where
  | null
  | bool (b : Bool)
  | num (n : JSNum)
  | str (s : String)
  | arr (elems : List JValue)
  | obj (fields : List (String × JValue))

/-- JS truthiness of an arbitrary value. -/
def jtruthyJ : JValue → Bool
  | .null => false
  | .bool b => b
  | .num n => jtruthy n
  | .str s => s != ""
  | .arr _ => true
  | .obj _ => true

/-- `typeof v === "object"`: true for objects, arrays and `null`. -/
def typeofIsObject : JValue → Bool
  | .null => true
  | .arr _ => true
  | .obj _ => true
  | _ => false

/-- Whether a value is an array (`Array.isArray`). -/
def JValue.isArr : JValue → Bool
  | .arr _ => true
  | _ => false

/-- A non-null value of object type: what `m && typeof m === "object"`
accepts, and what "is a JS object" means below. -/
def jsObjectLike (v : JValue) : Bool := jtruthyJ v && typeofIsObject v

/-- Raw content of one storage cell: missing (`getItem` returns `null`),
a string `JSON.parse` rejects (the empty string included), or a string
parsing to a `JValue`. -/
inductive RawVal where
  | absent
  | corrupt
  | json (v : JValue)

/-- Whether an `Except` result is a success. -/
def exceptOk : Except Unit JValue → Bool
  | .ok _ => true
  | .error _ => false

/-- Body of `readFavs` before the surrounding `try`: `JSON.parse` of a
corrupt string is the error case. -/
def readFavsE : RawVal → Except Unit JValue
  | .absent => .ok (.arr [])
  | .corrupt => .error ()
  | .json v => .ok (if v.isArr then v else .arr [])

/-- `readFavs`: the body with the `catch { return [] }` applied. -/
def readFavs (raw : RawVal) : JValue :=
  match readFavsE raw with
  | .ok v => v
  | .error _ => .arr []

/-- Body of `readProg` before the surrounding `try`.  The guard is
`map && typeof map === "object"`, which lets arrays through (they are
objects to `typeof`) and rejects `null` and primitives. -/
def readProgE : RawVal → Except Unit JValue
  | .absent => .ok (.obj [])
  | .corrupt => .error ()
  | .json v => .ok (if jsObjectLike v then v else .obj [])

/-- `readProg`: the body with the `catch { return {} }` applied. -/
def readProg (raw : RawVal) : JValue :=
  match readProgE raw with
  | .ok v => v
  | .error _ => .obj []

/-- A favourite item as stored in the favourites list (`FavItem` in the
source's doc comment).  `cover` and `audio` are optional; `addedAt` is
`none` when the field is `undefined` on the argument object. -/
structure FavItem where
  id : String
  title : String
  showId : String
  showTitle : String
  season : Int
  episode : Int
  cover : Option String
  audio : Option String
  addedAt : Option JSNum
deriving DecidableEq, Repr

/-- `Array.prototype.findIndex`: index of the first element satisfying
the predicate; JS's `-1` (no match) is `none`. -/
def findIndex (p : α → Bool) : List α → Option Nat
  | [] => none
  | x :: xs => if p x then some 0 else (findIndex p xs).map (· + 1)

/-- The object `{ ...item, addedAt: item.addedAt ?? Date.now() }` pushed
by `toggleFav`; `now` stands for `Date.now()`. -/
def mkStored (item : FavItem) (now : ℚ) : FavItem :=
  { item with addedAt := some (item.addedAt.getD (.fin now)) }

/-- `toggleFav` on the decoded favourites list: remove the first entry
whose `id` matches, else append the item with `addedAt` defaulted.  The
source writes this list back to storage and also returns it. -/
def toggleFav (list : List FavItem) (item : FavItem) (now : ℚ) : List FavItem :=
  match findIndex (fun f => f.id == item.id) list with
  | some i => list.eraseIdx i
  | none => list ++ [mkStored item now]

/-- The favourites storage cell, holding the decoded stored list.  The
source stores `JSON.stringify(list)` and re-parses on read; for the
well-formed lists the source itself writes, that round trip is the
identity, which is how the cell is modelled here. -/
structure FavState where
  stored : List FavItem
deriving DecidableEq, Repr

/-- One run of `toggleFav` against storage: read the list, toggle, write
the result back, and return it (`writeFavs(list); return list`). -/
def favToggleRun (st : FavState) (item : FavItem) (now : ℚ) :
    FavState × List FavItem :=
  let result := toggleFav st.stored item now
  (⟨result⟩, result)

/-- `loadFavs()`: read the stored favourites list. -/
def loadFavs (st : FavState) : List FavItem := st.stored

/-- `isFaved(id)`: `readFavs().some((f) => f.id === id)`. -/
def isFaved (st : FavState) (id : String) : Bool :=
  st.stored.any (fun f => f.id == id)

/-- One entry of the progress map:
`{ t:number, finished?:boolean, duration?:number }`.  `none` models an
`undefined` field; a stored `finished: undefined` (what
`false || undefined` yields, dropped by `JSON.stringify`) is falsy
exactly like `false`, so `finished` is a plain `Bool`. -/
structure ProgEntry where
  t : Option JSNum
  finished : Bool
  duration : Option JSNum
deriving DecidableEq, Repr

/-- The decoded progress map: JS object keys in insertion order. -/
def ProgMap := List (String × ProgEntry)

/-- `map[id]` as a read: the value at the first matching key. -/
def lookupProg : ProgMap → String → Option ProgEntry
  | [], _ => none
  | (k, v) :: rest, id => if k = id then some v else lookupProg rest id

/-- `map[id] = e` on a JS object: overwrite an existing key in place,
else append the new key. -/
def setProg : ProgMap → String → ProgEntry → ProgMap
  | [], id, e => [(id, e)]
  | (k, v) :: rest, id, e =>
      if k = id then (id, e) :: rest else (k, v) :: setProg rest id e

/-- `saveProgress(id, t, finished, duration)`: merge into the previous
entry.  `finished` is OR'd with the stored flag; `duration` is taken
whenever the argument has number type (`NaN` included), else the
previous duration (`?? 0`) is kept. -/
def saveProgress (m : ProgMap) (id : String) (t : JSNum) (finished : Bool)
    (duration : JSArg) : ProgMap :=
  let prev := (lookupProg m id).getD ⟨none, false, none⟩
  setProg m id
    { t := some t
      finished := finished || prev.finished
      duration :=
        match duration with
        | .num n => some n
        | _ => some (prev.duration.getD (.fin 0)) }

/-- `loadProgress(id)`: `entry?.t ?? 0`. -/
def loadProgress (m : ProgMap) (id : String) : JSNum :=
  match lookupProg m id with
  | none => .fin 0
  | some e => e.t.getD (.fin 0)

/-- `markFinished(id, duration)`: set `finished`, default the position
to the prior one, else to the duration when that is a number, else 0. -/
def markFinished (m : ProgMap) (id : String) (duration : JSArg) : ProgMap :=
  let prev := (lookupProg m id).getD ⟨none, false, none⟩
  setProg m id
    { t := some (prev.t.getD
        (match duration with | .num n => n | _ => .fin 0))
      finished := true
      duration :=
        match duration with
        | .num n => some n
        | _ => some (prev.duration.getD (.fin 0)) }

/-- `getProgress(id)`: `map[id] || null` (entries are objects, hence
truthy, so this is the plain lookup). -/
def getProgress (m : ProgMap) (id : String) : Option ProgEntry :=
  lookupProg m id

/-- The pill `renderProgressPill` renders: nothing, "Finished",
"In progress", or "In progress • pct%" with the rounded percentage. -/
inductive PillLabel where
  | noPill
  | finishedLabel
  | inProgress
  | inProgressPct (pct : ℚ)
deriving DecidableEq, Repr

/-- `renderProgressPill(id)`.  An `undefined` numeric field flows into
truthiness and comparisons exactly like `NaN`, hence `Option.getD .nan`.
The `isFinite(pct)` test corresponds to the `.nan` branch of the final
match: in this infinite-free model the rounded percentage is `NaN`
exactly when it is not finite in JS. -/
def renderProgressPill (m : ProgMap) (id : String) : PillLabel :=
  match getProgress m id with
  | none => .noPill
  | some p =>
    if p.finished then .finishedLabel
    else
      let d := p.duration.getD .nan
      let t := p.t.getD .nan
      if jtruthy d && jgt d (.fin 0) && jge t (.fin 0) then
        match jround (jmul (jdiv t d) (.fin 100)) with
        | .nan => .inProgress
        | .fin pct =>
            if 0 ≤ pct ∧ pct ≤ 100 then .inProgressPct pct else .inProgress
      else .inProgress

/-- The storage records the player and progress code touches: the
progress map, the durable last-track record, the playback-state record,
the session-scoped last-track copy, and the favourites cell (present to
show it is untouched). -/
structure Store where
  prog : RawVal
  lastTrackLocal : RawVal
  lastTrackState : Option String
  lastTrackSession : RawVal
  favs : RawVal

/-- `clearAllProgress()`: remove the progress map, the durable and
session last-track records, and the playback-state record. -/
def clearAllProgress (s : Store) : Store :=
  { s with
      prog := .absent
      lastTrackLocal := .absent
      lastTrackState := none
      lastTrackSession := .absent }

/-- `sessionStorage.getItem(LAST_TRACK_KEY) ||
localStorage.getItem(LAST_TRACK_KEY)`: the session copy unless it is
absent (the falsy empty string is under `RawVal.corrupt`, whose restore
outcome below coincides with `absent`). -/
def restoreRaw (s : Store) : RawVal :=
  match s.lastTrackSession with
  | .absent => s.lastTrackLocal
  | x => x

/-- Property access `v.k` on a parsed JSON value: `undefined` (modelled
`null`, which is truthiness-equivalent) when the key is missing or the
value is not an object. -/
def jfield (v : JValue) (k : String) : JValue :=
  match v with
  | .obj kvs => (kvs.lookup k).getD .null
  | _ => .null

/-- The value shown as `#nowTitle` right after `mountPlayer` runs: the
restored track's `title || "Now Playing"` when a stored track with
truthy `id` and `src` is restored, else the markup default
"No episode selected" (a parse failure abandons the whole restore block
via its `try`/`catch`). -/
def mountNowTitleJ (s : Store) : JValue :=
  match restoreRaw s with
  | .json v =>
      if jtruthyJ v && jtruthyJ (jfield v "id") && jtruthyJ (jfield v "src") then
        if jtruthyJ (jfield v "title") then jfield v "title"
        else .str "Now Playing"
      else .str "No episode selected"
  | _ => .str "No episode selected"

/-- The `back10` click handler's new position:
`Math.max(0, audio.currentTime - 10)`. -/
def back10 (t : JSNum) : JSNum := jmax (.fin 0) (jsub t (.fin 10))

/-- The `fwd10` click handler's new position:
`Math.min(audio.duration || audio.currentTime + 10, audio.currentTime + 10)`. -/
def fwd10 (t d : JSNum) : JSNum :=
  jmin (jorNum d (jadd t (.fin 10))) (jadd t (.fin 10))


/-! ## Helper lemmas about the embedded operations -/

/-- Writing a key and reading it back yields the written entry. -/
theorem lookupProg_setProg_self (m : ProgMap) (id : String) (e : ProgEntry) :
    lookupProg (setProg m id e) id = some e := by
  induction m with
  | nil => simp [setProg, lookupProg]
  | cons kv rest ih =>
    obtain ⟨k, v⟩ := kv
    by_cases h : k = id
    · simp [setProg, h, lookupProg]
    · simp [setProg, h, lookupProg, ih]

/-- Writing one key leaves every other key's entry unchanged. -/
theorem lookupProg_setProg_other (m : ProgMap) (id k' : String) (e : ProgEntry)
    (h : id ≠ k') :
    lookupProg (setProg m id e) k' = lookupProg m k' := by
  induction m with
  | nil => simp [setProg, lookupProg, h]
  | cons kv rest ih =>
    obtain ⟨k, v⟩ := kv
    by_cases hk : k = id
    · subst hk
      simp [setProg, lookupProg, h]
    · simp [setProg, hk, lookupProg, ih]

/-- `findIndex` misses exactly when no element satisfies the predicate. -/
theorem findIndex_eq_none_iff (p : α → Bool) (l : List α) :
    findIndex p l = none ↔ ∀ x ∈ l, p x = false := by
  induction l with
  | nil => simp [findIndex]
  | cons a l ih =>
    by_cases h : p a = true
    · simp [findIndex, h]
    · have h' : p a = false := by simpa using h
      simp [findIndex, h', ih]

/-- When nothing in `l` matches and `x` does, the first match in
`l ++ [x]` is at index `l.length`. -/
theorem findIndex_append_singleton (p : α → Bool) (l : List α) (x : α)
    (h : ∀ y ∈ l, p y = false) (hx : p x = true) :
    findIndex p (l ++ [x]) = some l.length := by
  induction l with
  | nil => simp [findIndex, hx]
  | cons a l ih =>
    have ha : p a = false := h a (by simp)
    have ih' := ih (fun y hy => h y (by simp [hy]))
    simp [findIndex, ha, ih']

/-- Removing the appended last element recovers the original list. -/
theorem eraseIdx_append_length (l : List α) (x : α) :
    (l ++ [x]).eraseIdx l.length = l := by
  induction l with
  | nil => rfl
  | cons a l ih =>
    show a :: (l ++ [x]).eraseIdx l.length = a :: l
    rw [ih]

/-- With exactly one match in the list, erasing the element `findIndex`
locates is the same as filtering the match out, and no match remains. -/
theorem erase_first_of_countP_one (p : α → Bool) (l : List α)
    (h : l.countP p = 1) :
    ∃ i, findIndex p l = some i
      ∧ l.eraseIdx i = l.filter (fun x => !(p x))
      ∧ (l.eraseIdx i).countP p = 0 := by
  induction l with
  | nil => simp at h
  | cons a l ih =>
    by_cases hpa : p a = true
    · have hl : l.countP p = 0 := by
        rw [List.countP_cons_of_pos p l hpa] at h
        omega
      have hfl : l.filter (fun x => !(p x)) = l :=
        List.filter_eq_self.mpr (fun x hx => by
          have := (List.countP_eq_zero.mp hl) x hx
          simp_all)
      refine ⟨0, ?_, ?_, ?_⟩
      · simp [findIndex, hpa]
      · show l = (a :: l).filter (fun x => !(p x))
        rw [List.filter_cons_of_neg (by simp [hpa]), hfl]
      · show l.countP p = 0
        exact hl
    · have hpa' : p a = false := by simpa using hpa
      have hl : l.countP p = 1 := by
        rwa [List.countP_cons_of_neg p l (by simp [hpa'])] at h
      obtain ⟨i, hfi, herase, hcount⟩ := ih hl
      refine ⟨i + 1, ?_, ?_, ?_⟩
      · simp [findIndex, hpa', hfi]
      · show a :: l.eraseIdx i = (a :: l).filter (fun x => !(p x))
        rw [List.filter_cons_of_pos (by simp [hpa']), herase]
      · show (a :: l.eraseIdx i).countP p = 0
        rw [List.countP_cons_of_neg p _ (by simp [hpa'])]
        exact hcount

/-! ## Claim theorems -/

/-- C6: for every stored raw value — unparsable JSON, a missing value,
or a value of the wrong shape included — `readFavs` returns an array
(`[]` as the safe default) and `readProg` returns a JS object (`{}` as
the safe default); a `JSON.parse` failure is caught and collapsed into
the default rather than thrown. -/
theorem reads_tolerate_corruption (raw : RawVal) :
    (readFavs raw).isArr = true
    ∧ jsObjectLike (readProg raw) = true
    ∧ (exceptOk (readFavsE raw) = false → readFavs raw = .arr [])
    ∧ (exceptOk (readProgE raw) = false → readProg raw = .obj [])
    ∧ (raw = .absent → readFavs raw = .arr [] ∧ readProg raw = .obj [])
    ∧ (∀ v, raw = .json v → v.isArr = false → readFavs raw = .arr [])
    ∧ (∀ v, raw = .json v → jsObjectLike v = false → readProg raw = .obj []) := by
  cases raw with
  | absent =>
    refine ⟨rfl, rfl, ?_, ?_, fun _ => ⟨rfl, rfl⟩, ?_, ?_⟩
    · intro h; cases h
    · intro h; cases h
    · intro v h; cases h
    · intro v h; cases h
  | corrupt =>
    refine ⟨rfl, rfl, fun _ => rfl, fun _ => rfl, ?_, ?_, ?_⟩
    · intro h; cases h
    · intro v h; cases h
    · intro v h; cases h
  | json v =>
    refine ⟨?_, ?_, ?_, ?_, ?_, ?_, ?_⟩
    · by_cases hv : v.isArr = true
      · simp [readFavs, readFavsE, hv]
      · simp [readFavs, readFavsE, hv]
        rfl
    · by_cases hv : jsObjectLike v = true
      · simp [readProg, readProgE, hv]
      · simp [readProg, readProgE, hv]
        rfl
    · intro h
      simp [readFavsE, exceptOk] at h
    · intro h
      simp [readProgE, exceptOk] at h
    · intro h; cases h
    · intro w h hw
      cases h
      simp [readFavs, readFavsE, hw]
    · intro w h hw
      cases h
      simp [readProg, readProgE, hw]

/-- Witness for C6 at a concrete corrupt cell and a wrong-shape value. -/
theorem reads_tolerate_corruption_witness :
    readFavs .corrupt = .arr [] ∧ readProg .corrupt = .obj []
    ∧ readFavs (.json (.num (.fin 5))) = .arr []
    ∧ readProg (.json .null) = .obj [] :=
  ⟨(reads_tolerate_corruption .corrupt).2.2.1 rfl,
   (reads_tolerate_corruption .corrupt).2.2.2.1 rfl,
   (reads_tolerate_corruption (.json (.num (.fin 5)))).2.2.2.2.2.1
     (.num (.fin 5)) rfl rfl,
   (reads_tolerate_corruption (.json .null)).2.2.2.2.2.2 .null rfl rfl⟩

/-- C7: for an episode id with no entry in the progress map,
`loadProgress` returns 0 and `getProgress` returns null. -/
theorem loadProgress_getProgress_absent (m : ProgMap) (id : String)
    (h : lookupProg m id = none) :
    loadProgress m id = .fin 0 ∧ getProgress m id = none := by
  constructor
  · simp [loadProgress, h]
  · simp [getProgress, h]

/-- Witness for C7: the empty map and an unknown id. -/
theorem loadProgress_getProgress_absent_witness :
    loadProgress ([] : ProgMap) "ep1" = .fin 0
    ∧ getProgress ([] : ProgMap) "ep1" = none :=
  loadProgress_getProgress_absent [] "ep1" rfl

/-- C2: once the stored `finished` flag of an id is true, a
`saveProgress` call for that id with `finished = false` leaves the
stored flag true. -/
theorem saveProgress_finished_monotone (m : ProgMap) (id : String)
    (e : ProgEntry) (t : JSNum) (dur : JSArg)
    (h : lookupProg m id = some e) (hfin : e.finished = true) :
    ∃ e', lookupProg (saveProgress m id t false dur) id = some e'
      ∧ e'.finished = true := by
  simp only [saveProgress, h, Option.getD_some]
  exact ⟨_, lookupProg_setProg_self _ _ _, by simp [hfin]⟩

/-- Witness for C2 at a concrete finished entry. -/
theorem saveProgress_finished_monotone_witness :
    ∃ e', lookupProg (saveProgress
        [("e1", ⟨some (.fin 3), true, some (.fin 9)⟩)]
        "e1" (.fin 4) false .undef) "e1" = some e'
      ∧ e'.finished = true :=
  saveProgress_finished_monotone _ "e1" ⟨some (.fin 3), true, some (.fin 9)⟩
    (.fin 4) .undef rfl rfl

/-- C9: `saveProgress` and `markFinished` for one id leave the stored
entry of every other id unchanged. -/
theorem progress_frame (m : ProgMap) (id id' : String) (h : id ≠ id')
    (t : JSNum) (f : Bool) (dur dur' : JSArg) :
    lookupProg (saveProgress m id t f dur) id' = lookupProg m id'
    ∧ lookupProg (markFinished m id dur') id' = lookupProg m id' := by
  constructor
  · simp only [saveProgress]
    exact lookupProg_setProg_other _ _ _ _ h
  · simp only [markFinished]
    exact lookupProg_setProg_other _ _ _ _ h

/-- Witness for C9: writing id "a" leaves id "b"'s entry in place. -/
theorem progress_frame_witness :
    lookupProg (saveProgress [("b", ⟨some (.fin 1), false, some (.fin 2)⟩)]
        "a" (.fin 0) false .undef) "b"
      = some ⟨some (.fin 1), false, some (.fin 2)⟩
    ∧ lookupProg (markFinished [("b", ⟨some (.fin 1), false, some (.fin 2)⟩)]
        "a" .undef) "b"
      = some ⟨some (.fin 1), false, some (.fin 2)⟩ := by
  have h := progress_frame [("b", ⟨some (.fin 1), false, some (.fin 2)⟩)]
    "a" "b" (by decide) (.fin 0) false .undef .undef
  exact ⟨h.1.trans (by decide), h.2.trans (by decide)⟩

/-- C3 counterexample: `typeof NaN === "number"`, so a `saveProgress`
call with a `NaN` duration — not a valid number — overwrites the
previously stored duration (100) instead of keeping it. -/
theorem saveProgress_nan_duration_cex :
    (lookupProg (saveProgress
        [("e1", ⟨some (.fin 0), false, some (.fin 100)⟩)]
        "e1" (.fin 5) false (.num .nan)) "e1").map ProgEntry.duration
      = some (some JSNum.nan)
    ∧ some (some JSNum.nan) ≠ some (some (JSNum.fin 100)) := by
  exact ⟨by decide, by decide⟩

/-- C3 amended: a `saveProgress` call whose duration argument is not of
JS number type (`undefined` or any non-number value) leaves the stored
duration unchanged; `NaN`, being number-typed, is stored as is. -/
theorem saveProgress_duration_keeps_nonNumber (m : ProgMap) (id : String)
    (e : ProgEntry) (d : JSNum) (t : JSNum) (f : Bool) (dur : JSArg)
    (h : lookupProg m id = some e) (hd : e.duration = some d)
    (hnum : isNumberType dur = false) :
    ∃ e', lookupProg (saveProgress m id t f dur) id = some e'
      ∧ e'.duration = some d := by
  simp only [saveProgress, h, Option.getD_some]
  refine ⟨_, lookupProg_setProg_self _ _ _, ?_⟩
  cases dur with
  | num n => simp [isNumberType] at hnum
  | undef => simp [hd]
  | nonNum => simp [hd]

/-- Witness for the amended C3 at a concrete `undefined` duration. -/
theorem saveProgress_duration_keeps_nonNumber_witness :
    ∃ e', lookupProg (saveProgress
        [("e1", ⟨some (.fin 0), false, some (.fin 100)⟩)]
        "e1" (.fin 7) false .undef) "e1" = some e'
      ∧ e'.duration = some (.fin 100) :=
  saveProgress_duration_keeps_nonNumber _ "e1"
    ⟨some (.fin 0), false, some (.fin 100)⟩ (.fin 100) (.fin 7) false .undef
    rfl rfl rfl

/-- C8: with a loaded track (positive duration, position within
`[0, duration]`), skip-back-10 and skip-forward-10 compute the old
position minus/plus 10 seconds clamped to `[0, duration]`. -/
theorem skip10_clamped (t d : ℚ) (h0 : 0 ≤ t) (h1 : t ≤ d) (h2 : 0 < d) :
    back10 (.fin t) = .fin (max 0 (min d (t - 10)))
    ∧ fwd10 (.fin t) (.fin d) = .fin (max 0 (min d (t + 10))) := by
  constructor
  · simp only [back10, jsub, jmax]
    rw [min_eq_right (by linarith : t - 10 ≤ d)]
  · have hd : jtruthy (.fin d) = true := by
      simp [jtruthy]
      exact h2.ne'
    simp only [fwd10, jorNum, jadd, hd, if_pos, jmin]
    rw [max_eq_right (le_min h2.le (by linarith : (0:ℚ) ≤ t + 10))]

/-- Witness for C8 at position 5 of a 60-second track. -/
theorem skip10_clamped_witness :
    back10 (.fin 5) = .fin 0 ∧ fwd10 (.fin 5) (.fin 60) = .fin 15 := by
  have h := skip10_clamped 5 60 (by norm_num) (by norm_num) (by norm_num)
  have e1 : max 0 (min 60 (5 - 10 : ℚ)) = 0 := by
    norm_num [min_def, max_def]
  have e2 : max 0 (min 60 (5 + 10 : ℚ)) = 15 := by
    norm_num [min_def, max_def]
  exact ⟨h.1.trans (by rw [e1]), h.2.trans (by rw [e2])⟩

/-- C5: `clearAllProgress` leaves the progress map, both last-track
records and the playback-state record absent, and a freshly mounted
player then shows the markup default "No episode selected" whatever was
stored before. -/
theorem clearAllProgress_resets_player (s : Store) :
    (clearAllProgress s).prog = RawVal.absent
    ∧ (clearAllProgress s).lastTrackLocal = RawVal.absent
    ∧ (clearAllProgress s).lastTrackState = none
    ∧ (clearAllProgress s).lastTrackSession = RawVal.absent
    ∧ mountNowTitleJ (clearAllProgress s) = .str "No episode selected" :=
  ⟨rfl, rfl, rfl, rfl, rfl⟩

/-- C1 counterexample: with `[A, B]` stored (`A.id = "x"` at the front)
and a toggled item carrying id "x" but a different title, two toggles
produce `[B, item']`, not the original `[A, B]`: the re-added entry is
rebuilt from the argument and appended at the end. -/
theorem toggleFav_twice_cex :
    toggleFav (toggleFav
        [⟨"x", "old", "s", "st", 1, 1, none, none, some (.fin 1)⟩,
         ⟨"y", "b", "s", "st", 1, 2, none, none, some (.fin 2)⟩]
        ⟨"x", "new", "s", "st", 1, 1, none, none, some (.fin 7)⟩ 0)
      ⟨"x", "new", "s", "st", 1, 1, none, none, some (.fin 7)⟩ 0
    ≠ [⟨"x", "old", "s", "st", 1, 1, none, none, some (.fin 1)⟩,
       ⟨"y", "b", "s", "st", 1, 2, none, none, some (.fin 2)⟩] := by
  decide

/-- C1 amended: toggling the same item id twice restores the favourites
list exactly when no entry with that id was present; when exactly one
entry with that id was present, the other entries keep their content and
order, but the matching entry is replaced by the argument item
(`addedAt` defaulted) appended at the end of the list. -/
theorem toggleFav_twice (l : List FavItem) (item : FavItem) (n1 n2 : ℚ) :
    ((∀ f ∈ l, (f.id == item.id) = false) →
        toggleFav (toggleFav l item n1) item n2 = l)
    ∧ (l.countP (fun f => f.id == item.id) = 1 →
        toggleFav (toggleFav l item n1) item n2
          = l.filter (fun f => !(f.id == item.id)) ++ [mkStored item n2]) := by
  constructor
  · intro h
    have h1 : toggleFav l item n1 = l ++ [mkStored item n1] := by
      simp only [toggleFav, (findIndex_eq_none_iff _ _).mpr h]
    have hx : ((mkStored item n1).id == item.id) = true := by
      simp [mkStored]
    rw [h1]
    simp only [toggleFav, findIndex_append_singleton _ _ _ h hx,
      eraseIdx_append_length]
  · intro h
    obtain ⟨i, hfi, herase, hcount⟩ :=
      erase_first_of_countP_one (fun f => f.id == item.id) l h
    have h1 : toggleFav l item n1 = l.eraseIdx i := by
      simp only [toggleFav, hfi]
    have h2 : ∀ f ∈ l.eraseIdx i, (f.id == item.id) = false := by
      intro f hf
      have := (List.countP_eq_zero.mp hcount) f hf
      simpa using this
    have h3 : toggleFav (l.eraseIdx i) item n2
        = l.eraseIdx i ++ [mkStored item n2] := by
      simp only [toggleFav, (findIndex_eq_none_iff _ _).mpr h2]
    rw [h1, h3, herase]

/-- Witness for the amended C1: both branches at concrete lists. -/
theorem toggleFav_twice_witness :
    toggleFav (toggleFav
        [⟨"y", "b", "s", "st", 1, 2, none, none, some (.fin 2)⟩]
        ⟨"x", "t", "s", "st", 1, 1, none, none, some (.fin 3)⟩ 1)
      ⟨"x", "t", "s", "st", 1, 1, none, none, some (.fin 3)⟩ 2
    = [⟨"y", "b", "s", "st", 1, 2, none, none, some (.fin 2)⟩]
    ∧ toggleFav (toggleFav
        [⟨"x", "t", "s", "st", 1, 1, none, none, some (.fin 3)⟩,
         ⟨"y", "b", "s", "st", 1, 2, none, none, some (.fin 2)⟩]
        ⟨"x", "t", "s", "st", 1, 1, none, none, some (.fin 3)⟩ 1)
      ⟨"x", "t", "s", "st", 1, 1, none, none, some (.fin 3)⟩ 2
    = [⟨"y", "b", "s", "st", 1, 2, none, none, some (.fin 2)⟩,
       ⟨"x", "t", "s", "st", 1, 1, none, none, some (.fin 3)⟩] := by
  refine ⟨(toggleFav_twice _ _ 1 2).1 (by decide),
    ((toggleFav_twice _ _ 1 2).2 (by decide)).trans (by decide)⟩

/-- C10: one `toggleFav` run returns exactly the list a subsequent
`loadFavs` reads back, and `isFaved` on the resulting state is true
exactly for the ids of that list's entries. -/
theorem toggleFav_persist_agree (st : FavState) (item : FavItem) (now : ℚ) :
    loadFavs (favToggleRun st item now).1 = (favToggleRun st item now).2
    ∧ ∀ id, isFaved (favToggleRun st item now).1 id = true ↔
        ∃ f ∈ (favToggleRun st item now).2, f.id = id := by
  constructor
  · rfl
  · intro id
    simp [favToggleRun, isFaved, loadFavs, List.any_eq_true, beq_iff_eq]

/-- C4 counterexample: an unfinished entry with position 3 and duration
2 has `round(3/2*100) = 150`; the pill shows the generic "In progress"
label, not the clamped percentage 100 the claim prescribes. -/
theorem renderProgressPill_cex :
    renderProgressPill [("e1", ⟨some (.fin 3), false, some (.fin 2)⟩)] "e1"
      = PillLabel.inProgress
    ∧ PillLabel.inProgress ≠ PillLabel.inProgressPct 100 := by
  constructor
  · have hfl : (⌊(3:ℚ) / 2 * 100 + 2⁻¹⌋ : ℤ) = 150 :=
      Int.floor_eq_iff.mpr (by norm_num)
    simp [renderProgressPill, getProgress, lookupProg, jtruthy, jgt, jge,
      jdiv, jmul, jround, hfl]
    norm_num [hfl]
  · decide

/-- C4 amended: an unfinished entry shows the percentage
`round(position / duration * 100)` exactly when the stored duration is
a positive (finite) number, the position is a nonnegative number, and
the rounded value already lies within `[0, 100]`; in every other case —
an out-of-range percentage included — the pill is the generic
"In progress" label without a percentage, and any displayed percentage
comes from an entry with a positive finite duration. -/
theorem renderProgressPill_spec :
    (∀ (m : ProgMap) (id : String) (e : ProgEntry) (tq dq : ℚ),
        lookupProg m id = some e → e.finished = false →
        e.t = some (.fin tq) → e.duration = some (.fin dq) →
        0 < dq → 0 ≤ tq →
        renderProgressPill m id =
          if 0 ≤ ((⌊tq / dq * 100 + 1/2⌋ : ℤ) : ℚ)
              ∧ ((⌊tq / dq * 100 + 1/2⌋ : ℤ) : ℚ) ≤ 100
          then .inProgressPct ((⌊tq / dq * 100 + 1/2⌋ : ℤ) : ℚ)
          else .inProgress)
    ∧ (∀ (m : ProgMap) (id : String) (q : ℚ),
        renderProgressPill m id = .inProgressPct q →
        ∃ e dq, lookupProg m id = some e ∧ e.finished = false
          ∧ e.duration = some (.fin dq) ∧ 0 < dq ∧ 0 ≤ q ∧ q ≤ 100) := by
  constructor
  · intro m id e tq dq hl hfin ht hd hdq htq
    have hne : dq ≠ 0 := hdq.ne'
    have g1 : jtruthy (.fin dq) = true := by
      simp [jtruthy]
      exact hne
    have g2 : jgt (.fin dq) (.fin 0) = true := by
      simp [jgt]
      exact hdq
    have g3 : jge (.fin tq) (.fin 0) = true := by
      simp [jge]
      exact htq
    simp only [renderProgressPill, getProgress, hl, hfin, Bool.false_eq_true,
      if_false, ht, hd, Option.getD_some, g1, g2, g3, Bool.and_self,
      Bool.true_and, Bool.and_true, if_true, jdiv, if_neg hne, jmul, jround]
  · intro m id q h
    unfold renderProgressPill getProgress at h
    cases hl : lookupProg m id with
    | none => rw [hl] at h; simp at h
    | some e =>
      rw [hl] at h
      simp only [] at h
      by_cases hf : e.finished = true
      · rw [if_pos hf] at h
        simp at h
      · have hf' : e.finished = false := by simpa using hf
        rw [if_neg hf] at h
        cases hdo : e.duration with
        | none =>
          rw [hdo] at h
          simp [jtruthy] at h
        | some dn =>
          cases dn with
          | nan =>
            rw [hdo] at h
            simp [jtruthy] at h
          | fin dq =>
            rw [hdo] at h
            simp only [Option.getD_some] at h
            by_cases hdq : (0:ℚ) < dq
            · refine ⟨e, dq, rfl, hf', hdo, hdq, ?_⟩
              have g1 : jtruthy (.fin dq) = true := by
                simp [jtruthy]
                exact hdq.ne'
              have g2 : jgt (.fin dq) (.fin 0) = true := by
                simp [jgt]
                exact hdq
              rw [g1, g2] at h
              by_cases hge : jge (e.t.getD .nan) (.fin 0) = true
              · rw [hge] at h
                simp only [Bool.and_self, Bool.true_and, Bool.and_true,
                  if_true] at h
                cases hr : jround (jmul (jdiv (e.t.getD .nan) (.fin dq))
                    (.fin 100)) with
                | nan =>
                  rw [hr] at h
                  have h' : PillLabel.inProgress = PillLabel.inProgressPct q := h
                  exact PillLabel.noConfusion h'
                | fin pq =>
                  rw [hr] at h
                  have h' : (if 0 ≤ pq ∧ pq ≤ 100 then
                      PillLabel.inProgressPct pq else PillLabel.inProgress)
                      = PillLabel.inProgressPct q := h
                  by_cases hb : 0 ≤ pq ∧ pq ≤ 100
                  · rw [if_pos hb] at h'
                    simp only [PillLabel.inProgressPct.injEq] at h'
                    exact h' ▸ hb
                  · rw [if_neg hb] at h'
                    simp at h'
              · have hge' : jge (e.t.getD .nan) (.fin 0) = false := by
                  simpa using hge
                rw [hge'] at h
                simp at h
            · have g2 : jgt (.fin dq) (.fin 0) = false := by
                simp [jgt]
                exact le_of_not_lt hdq
              rw [g2] at h
              simp at h

/-- Witness for the amended C4: position 1 of duration 2 renders the 50%
pill, and the displayed percentage comes from a positive duration. -/
theorem renderProgressPill_spec_witness :
    renderProgressPill [("e1", ⟨some (.fin 1), false, some (.fin 2)⟩)] "e1"
      = PillLabel.inProgressPct 50
    ∧ ∃ e dq, lookupProg [("e1", ⟨some (.fin 1), false, some (.fin 2)⟩)] "e1"
        = some e ∧ e.finished = false ∧ e.duration = some (.fin dq)
        ∧ 0 < dq ∧ 0 ≤ (50:ℚ) ∧ (50:ℚ) ≤ 100 := by
  have hfl : (⌊(1:ℚ) / 2 * 100 + 1/2⌋ : ℤ) = 50 :=
    Int.floor_eq_iff.mpr (by norm_num)
  have h1 := renderProgressPill_spec.1
    [("e1", ⟨some (.fin 1), false, some (.fin 2)⟩)] "e1"
    ⟨some (.fin 1), false, some (.fin 2)⟩ 1 2 rfl rfl rfl rfl
    (by norm_num) (by norm_num)
  rw [hfl] at h1
  have e1 : renderProgressPill
      [("e1", ⟨some (.fin 1), false, some (.fin 2)⟩)] "e1"
      = PillLabel.inProgressPct 50 := by
    rw [h1]
    norm_num
  exact ⟨e1, renderProgressPill_spec.2 _ "e1" 50 e1⟩
